import Mathlib

set_option maxHeartbeats 1000000
set_option maxRecDepth 100000

namespace Symptoms

/-! Shallow embedding of the free-text parsers of the
Symptoms-to-dialysis-Prediction repository: `buildStructuredResult`,
`resolveSection`, `parseCondition`, `cleanBullet`, `mapConfidence`
(frontend/src/pages/PromptPage.jsx) and `buildReportStructure`,
`resolveReportSection`, `stripMarkers` (report page source).
Strings are modelled as `List Char`. -/

/-- JavaScript whitespace: the characters matched by the regex class `\s`
and removed by `String.prototype.trim`. -/
def jsWS (c : Char) : Bool :=
  c = ' ' || c = '\t' || c = '\n' || c = '\x0b' || c = '\x0c' || c = '\r' ||
  c = ' ' || c = ' ' || (' ' ≤ c && c ≤ ' ') ||
  c = ' ' || c = ' ' || c = ' ' || c = ' ' ||
  c = '　' || c = '﻿'

/-- The character class `[-*•\d\.\)\s]` of `cleanBullet`. -/
def isBulletChar (c : Char) : Bool :=
  c = '-' || c = '*' || c = '•' || c.isDigit || c = '.' || c = ')' || jsWS c

/-- Remove the maximal trailing run of JavaScript whitespace
(the right half of `String.prototype.trim`). -/
def trimRight : List Char → List Char
  | [] => []
  | c :: rest =>
    let r := trimRight rest
    if r = [] && jsWS c then [] else c :: r

/-- `String.prototype.trim`: drop leading and trailing whitespace. -/
def trimChars (s : List Char) : List Char :=
  trimRight (s.dropWhile jsWS)

/-- State machine for `replace(/\s+/g, " ")`: the flag records whether the
scan is inside a whitespace run whose single replacement space has
already been emitted. -/
def collapseWSAux : Bool → List Char → List Char
  | _, [] => []
  | inRun, c :: rest =>
    if jsWS c then
      if inRun then collapseWSAux true rest
      else ' ' :: collapseWSAux true rest
    else c :: collapseWSAux false rest

/-- `replace(/\s+/g, " ")`: replace every maximal whitespace run by a
single space. -/
def collapseWS (s : List Char) : List Char :=
  collapseWSAux false s

/-- `cleanBullet` from PromptPage.jsx:
`text.replace(/^[-*•\d\.\)\s]+/, "").replace(/\s+/g, " ").trim()`. -/
def cleanBullet (text : List Char) : List Char :=
  trimChars (collapseWS (text.dropWhile isBulletChar))

/-- Does `s` start with `pat`? (`List Char` analogue of a literal
anchored regex match.) -/
def beginsWith : List Char → List Char → Bool
  | _, [] => true
  | [], _ :: _ => false
  | c :: cs, p :: ps => c = p && beginsWith cs ps

/-- Does `p` hold of some suffix of `s` (including `s` itself)? -/
def anySuffix (p : List Char → Bool) : List Char → Bool
  | [] => p []
  | c :: rest => p (c :: rest) || anySuffix p rest

/-- Substring containment, the `List Char` analogue of
`String.prototype.includes` / an unanchored literal regex test. -/
def containsSub (s pat : List Char) : Bool :=
  anySuffix (fun suf => beginsWith suf pat) s

/-- Lower-casing used to model the `i` regex flag on literal patterns. -/
def lowerStr (s : List Char) : List Char :=
  s.map Char.toLower

/-- `stripMarkers` step `replace(/^\*\*|\*\*$/g, "")`: remove a leading
`**` and a trailing `**`; with the global flag the trailing match must not
overlap the removed leading one (so `"***"` becomes `"*"`). -/
def stripWrapStars (s : List Char) : List Char :=
  if beginsWith s ['*', '*'] then
    let r := s.drop 2
    if beginsWith r.reverse ['*', '*'] then r.take (r.length - 2) else r
  else if beginsWith s.reverse ['*', '*'] then s.take (s.length - 2) else s

/-- `stripMarkers` from the report page:
`text.replace(/^\*\*|\*\*$/g, "").replace(/^\*\s*/, "")
     .replace(/^[\-\d\.\)]\s*/, "").replace(/\s+/g, " ").trim()`. -/
def stripMarkers (text : List Char) : List Char :=
  let s1 := stripWrapStars text
  let s2 :=
    match s1 with
    | '*' :: rest => rest.dropWhile jsWS
    | _ => s1
  let s3 :=
    match s2 with
    | [] => s2
    | c :: rest =>
      if c = '-' || c.isDigit || c = '.' || c = ')' then rest.dropWhile jsWS
      else s2
  trimChars (collapseWS s3)

/-- Split before the first occurrence of `**`: returns the part before it
and the part after it, or `none` when no `**` occurs. -/
def splitOnStarStar : List Char → Option (List Char × List Char)
  | '*' :: '*' :: rest => some ([], rest)
  | c :: rest =>
    match splitOnStarStar rest with
    | none => none
    | some (b, a) => some (c :: b, a)
  | [] => none

/-- The regex `/\*\*(.*?)\*\*/`: leftmost match with lazy inner span.
Returns `(inner, whole)` where `whole = "**" ++ inner ++ "**"`. -/
def matchStarSpan (s : List Char) : Option (List Char × List Char) :=
  match splitOnStarStar s with
  | none => none
  | some (_, after1) =>
    match splitOnStarStar after1 with
    | none => none
    | some (inner, _) => some (inner, '*' :: '*' :: (inner ++ ['*', '*']))

/-- `String.prototype.replace` with a plain (non-empty) string pattern:
replace the first occurrence of `pat` in `s` by the empty string. -/
def removeFirst (s pat : List Char) : List Char :=
  if beginsWith s pat then s.drop pat.length
  else
    match s with
    | [] => []
    | c :: rest => c :: removeFirst rest pat

/-- The regex `replace(/^[:\-–—]\s*/, "")` of `parseCondition`: one leading
separator character followed by a whitespace run. -/
def stripLeadSep (s : List Char) : List Char :=
  match s with
  | [] => []
  | c :: rest =>
    if c = ':' || c = '-' || c = '–' || c = '—' then rest.dropWhile jsWS
    else s

/-- `split(/\s-\s/)` scan: split at each non-overlapping leftmost
occurrence of whitespace, dash, whitespace. -/
def splitDashAux : List Char → List Char → List (List Char)
  | [], acc => [acc.reverse]
  | c :: rest, acc =>
    if (match rest with
        | d :: e :: _ => jsWS c && d = '-' && jsWS e
        | _ => false) then
      match rest with
      | _ :: _ :: rest2 => acc.reverse :: splitDashAux rest2 []
      | _ => [acc.reverse]
    else splitDashAux rest (c :: acc)

/-- `body.split(/\s-\s/)` from `parseCondition`. -/
def splitDash (s : List Char) : List (List Char) :=
  splitDashAux s []

/-- `rest.join(" - ")` from `parseCondition`. -/
def joinDash : List (List Char) → List Char
  | [] => []
  | [x] => x
  | x :: xs => x ++ [' ', '-', ' '] ++ joinDash xs

/-- `mapConfidence` from PromptPage.jsx. -/
def mapConfidence (label : List Char) : Nat :=
  let n := lowerStr label
  if containsSub n "high".data then 75
  else if containsSub n "medium".data || containsSub n "med".data then 55
  else if containsSub n "low".data then 35
  else 60

/-- The condition record assembled by `parseCondition`. -/
structure ConditionRecord where
  title : List Char
  summary : List Char
  confidenceLabel : List Char
  confidencePercent : Nat
deriving DecidableEq, Repr

/-- `parseCondition` from PromptPage.jsx. -/
def parseCondition (line : List Char) : Option ConditionRecord :=
  let body1 := cleanBullet line
  if body1 = [] then none
  else
    let labelBody :=
      match matchStarSpan body1 with
      | some (inner, whole) =>
        (trimChars (inner.filter (fun c => !(c = ':'))),
         trimChars (removeFirst body1 whole))
      | none => ([], body1)
    let confidenceLabel := labelBody.1
    let body := stripLeadSep labelBody.2
    let parts := splitDash body
    let titleTrim := trimChars (parts.headD [])
    let title := if titleTrim = [] then body else titleTrim
    let summary := trimChars (joinDash parts.tail)
    some ⟨title, summary, confidenceLabel, mapConfidence confidenceLabel⟩

/-- `/^[-*•\d]/.test(trimmed)`: the bullet-prefix guard of the
conditions section. -/
def startsBullet (s : List Char) : Bool :=
  match s with
  | [] => false
  | c :: _ => c = '-' || c = '*' || c = '•' || c.isDigit

/-- Prediction-mode section tags (the `section` variable of
`buildStructuredResult`). -/
inductive PSection
  | intro
  | conditions
  | redFlags
  | selfCare
  | specialist
  | disclaimer
deriving DecidableEq, Repr

/-- `/likely conditions/i` test. -/
def condRule (l : List Char) : Bool :=
  containsSub (lowerStr l) "likely conditions".data

/-- `/red flags/i` test. -/
def redFlagsRule (l : List Char) : Bool :=
  containsSub (lowerStr l) "red flags".data

/-- Anchored form of `/self[-\s]?care|self[-\s]?monitor/i` at the start of
an (already lower-cased) suffix. -/
def selfRuleAt (s : List Char) : Bool :=
  beginsWith s "self".data &&
    (let rest := s.drop 4
     beginsWith rest "care".data || beginsWith rest "monitor".data ||
       (match rest with
        | c :: r2 =>
          (c = '-' || jsWS c) &&
            (beginsWith r2 "care".data || beginsWith r2 "monitor".data)
        | [] => false))

/-- `/self[-\s]?care|self[-\s]?monitor/i` test. -/
def selfCareRule (l : List Char) : Bool :=
  anySuffix selfRuleAt (lowerStr l)

/-- `/specialist|doctor|clinician/i` test. -/
def specialistRule (l : List Char) : Bool :=
  containsSub (lowerStr l) "specialist".data ||
  containsSub (lowerStr l) "doctor".data ||
  containsSub (lowerStr l) "clinician".data

/-- `/disclaimer/i` test. -/
def disclaimerRule (l : List Char) : Bool :=
  containsSub (lowerStr l) "disclaimer".data

/-- `resolveSection` from PromptPage.jsx: ordered first-match-wins rules. -/
def resolveSection (line : List Char) : Option PSection :=
  if condRule line then some .conditions
  else if redFlagsRule line then some .redFlags
  else if selfCareRule line then some .selfCare
  else if specialistRule line then some .specialist
  else if disclaimerRule line then some .disclaimer
  else none

/-- The structured prediction result built by `buildStructuredResult`. -/
structure StructuredResult where
  introParagraphs : List (List Char)
  conditions : List ConditionRecord
  redFlags : List (List Char)
  selfCare : List (List Char)
  specialist : List (List Char)
  disclaimer : List Char
deriving DecidableEq, Repr

/-- The all-empty `base` object of `buildStructuredResult`. -/
def emptyStructured : StructuredResult :=
  ⟨[], [], [], [], [], []⟩

/-- Split on `'\n'` only (`String.prototype.split("\n")` shape). -/
def splitNL : List Char → List (List Char)
  | [] => [[]]
  | '\n' :: rest => [] :: splitNL rest
  | c :: rest =>
    match splitNL rest with
    | [] => [[c]]
    | l :: ls => (c :: l) :: ls

/-- Remove one trailing `'\r'` if present. -/
def dropTrailCR : List Char → List Char
  | [] => []
  | ['\r'] => []
  | c :: rest => c :: dropTrailCR rest

/-- `split(/\r?\n/)`: each `'\n'` terminates a line and consumes one
immediately preceding `'\r'`; a lone `'\r'` is ordinary content.
Implemented as a split on `'\n'` followed by removal of one trailing
`'\r'` per piece, which is the effect of that regex split. -/
def splitLines (s : List Char) : List (List Char) :=
  (splitNL s).map dropTrailCR

/-- The body of `buildStructuredResult`'s `for` loop: one line applied to
the accumulator record and the current section. -/
def predStep (st : StructuredResult × PSection) (line : List Char) :
    StructuredResult × PSection :=
  let base := st.1
  let sec := st.2
  let trimmed := trimChars line
  if trimmed = [] then st
  else
    match resolveSection trimmed with
    | some s => (base, s)
    | none =>
      match sec with
      | .conditions =>
        if startsBullet trimmed then
          match parseCondition trimmed with
          | some r => ({ base with conditions := base.conditions ++ [r] }, sec)
          | none => st
        else st
      | .redFlags =>
        ({ base with redFlags := base.redFlags ++ [cleanBullet trimmed] }, sec)
      | .selfCare =>
        ({ base with selfCare := base.selfCare ++ [cleanBullet trimmed] }, sec)
      | .specialist =>
        ({ base with specialist := base.specialist ++ [cleanBullet trimmed] }, sec)
      | .disclaimer =>
        ({ base with disclaimer := base.disclaimer ++ cleanBullet trimmed ++ [' '] }, sec)
      | .intro =>
        ({ base with introParagraphs := base.introParagraphs ++ [cleanBullet trimmed] }, sec)

/-- `buildStructuredResult` from PromptPage.jsx (a `null` argument takes
the same `if (!rawText)` early return as the empty string and is modelled
by `[]`). -/
def buildStructuredResult (rawText : List Char) : StructuredResult :=
  if rawText = [] then emptyStructured
  else
    let final := (splitLines rawText).foldl predStep (emptyStructured, .intro)
    { final.1 with disclaimer := trimChars final.1.disclaimer }

/-- Report-mode header tags returned by `resolveReportSection`. -/
inductive RTag
  | summaryTitle
  | findings
  | diagnoses
  | medications
  | followups
  | disclaimer
deriving DecidableEq, Repr

/-- Report-mode section state (after the SummaryTitle special case the
state reverts to `intro`, so `summaryTitle` is not a state). -/
inductive RSection
  | intro
  | findings
  | diagnoses
  | medications
  | followups
  | disclaimer
deriving DecidableEq, Repr

/-- The section state entered for a header tag: `summaryTitle` reverts to
`intro`, every other tag becomes the matching state. -/
def tagSection : RTag → RSection
  | .summaryTitle => .intro
  | .findings => .findings
  | .diagnoses => .diagnoses
  | .medications => .medications
  | .followups => .followups
  | .disclaimer => .disclaimer

/-- `resolveReportSection` from the report page: ordered rules, the first
anchored (`/^\*\*Summary/i`), the rest unanchored containment tests. -/
def resolveReportSection (line : List Char) : Option RTag :=
  if beginsWith (lowerStr line) "**summary".data then some .summaryTitle
  else if containsSub (lowerStr line) "key findings".data ||
      containsSub (lowerStr line) "impressions".data then some .findings
  else if containsSub (lowerStr line) "diagnoses".data ||
      containsSub (lowerStr line) "differential".data then some .diagnoses
  else if containsSub (lowerStr line) "medications".data ||
      containsSub (lowerStr line) "labs".data then some .medications
  else if containsSub (lowerStr line) "follow-up".data ||
      containsSub (lowerStr line) "follow up".data then some .followups
  else if containsSub (lowerStr line) "disclaimer".data then some .disclaimer
  else none

/-- The structured report result built by `buildReportStructure`. -/
structure ReportResult where
  summaryTitle : List Char
  intro : List (List Char)
  findings : List (List Char)
  diagnoses : List (List Char)
  medications : List (List Char)
  followups : List (List Char)
  disclaimer : List Char
deriving DecidableEq, Repr

/-- The all-empty `base` object of `buildReportStructure`. -/
def emptyReport : ReportResult :=
  ⟨[], [], [], [], [], [], []⟩

/-- The body of `buildReportStructure`'s `for` loop; its `line` argument
is already trimmed by the caller's `.map((line) => line.trim())`. -/
def reportStep (st : ReportResult × RSection) (line : List Char) :
    ReportResult × RSection :=
  let base := st.1
  let sec := st.2
  if line = [] then st
  else
    match resolveReportSection line with
    | some t =>
      if t = .summaryTitle then
        ({ base with summaryTitle := stripMarkers line }, RSection.intro)
      else (base, tagSection t)
    | none =>
      let content := stripMarkers line
      if content = [] then st
      else
        match sec with
        | .findings =>
          ({ base with findings := base.findings ++ [content] }, sec)
        | .diagnoses =>
          ({ base with diagnoses := base.diagnoses ++ [content] }, sec)
        | .medications =>
          ({ base with medications := base.medications ++ [content] }, sec)
        | .followups =>
          ({ base with followups := base.followups ++ [content] }, sec)
        | .disclaimer =>
          ({ base with disclaimer := base.disclaimer ++ content ++ [' '] }, sec)
        | .intro =>
          ({ base with intro := base.intro ++ [content] }, sec)

/-- `buildReportStructure` from the report page (a `null` argument takes
the same `if (!rawText)` early return as the empty string and is modelled
by `[]`). -/
def buildReportStructure (rawText : List Char) : ReportResult :=
  if rawText = [] then emptyReport
  else
    let final :=
      ((splitLines rawText).map trimChars).foldl reportStep (emptyReport, .intro)
    { final.1 with disclaimer := trimChars final.1.disclaimer }

/-- Is the head of the list absent or a character outside the class `p`? -/
def headSat (p : Char → Bool) : List Char → Bool
  | [] => true
  | c :: _ => !p c

/-- Is the head of the list absent or a non-whitespace character? -/
def headNotWS (l : List Char) : Bool :=
  headSat jsWS l

/-- Whitespace-normal form: every whitespace character is a plain space
and no whitespace character is followed by another one. -/
def wsNormed : List Char → Bool
  | [] => true
  | c :: rest => (!jsWS c || (c = ' ' && headNotWS rest)) && wsNormed rest

/-- Join pieces with single spaces (the shape the specification ascribes
to the accumulated disclaimer before its final trim). -/
def joinSpaces : List (List Char) → List Char
  | [] => []
  | [x] => x
  | x :: xs => x ++ [' '] ++ joinSpaces xs

/-- Append a space after every piece and concatenate: the exact shape the
code's `base.disclaimer += content + " "` accumulation produces. -/
def spacedConcat (ps : List (List Char)) : List Char :=
  (ps.map (fun p => p ++ [' '])).flatten

/-- The normalized non-blank content pieces of a list of prediction-mode
lines (trim, drop blank lines, normalize with `cleanBullet`). -/
def predPieces (ls : List (List Char)) : List (List Char) :=
  ((ls.map trimChars).filter (fun l => !l.isEmpty)).map cleanBullet

/-- The routed content pieces of a list of (already trimmed) report-mode
lines: blank lines are dropped, then normalization, then empty
normalized content is dropped. -/
def reportPieces (ls : List (List Char)) : List (List Char) :=
  ((ls.filter (fun l => !l.isEmpty)).map stripMarkers).filter (fun l => !l.isEmpty)

/-- Equality of two prediction results on the bucket owned by one
section tag. -/
def bucketEq : PSection → StructuredResult → StructuredResult → Prop
  | .intro, a, b => a.introParagraphs = b.introParagraphs
  | .conditions, a, b => a.conditions = b.conditions
  | .redFlags, a, b => a.redFlags = b.redFlags
  | .selfCare, a, b => a.selfCare = b.selfCare
  | .specialist, a, b => a.specialist = b.specialist
  | .disclaimer, a, b => a.disclaimer = b.disclaimer

/-- C1: evaluation of `buildStructuredResult` at the Scenario A input.
The claim expects the records (title `Flu`, summary `fever and cough`,
label `High`, score 75) and (title `Cold`, empty summary, label `Low`,
score 35). The code instead produces the records below: `cleanBullet`'s
leading character class contains `*`, so stripping the bullet also
consumes the opening `**` of the confidence span; the span regex then
finds no pair of `**` markers, the label stays empty, and the score
defaults to 60, while the label text leaks into the title. -/
theorem c1_scenarioA_eval :
    buildStructuredResult
        "Likely Conditions:\n- **High**: Flu - fever and cough\n- **Low**: Cold".data =
      { introParagraphs := []
        conditions :=
          [⟨"High**: Flu".data, "fever and cough".data, [], 60⟩,
           ⟨"Low**: Cold".data, [], [], 60⟩]
        redFlags := []
        selfCare := []
        specialist := []
        disclaimer := [] } := by
  rfl

/-- C3 counterexample: the report-mode normalizer `stripMarkers` is not
idempotent. It strips only one leading marker character per call, so
`"--x"` normalizes to `"-x"`, which normalizes again to `"x"`. -/
theorem c3_counterexample :
    stripMarkers (stripMarkers "--x".data) ≠ stripMarkers "--x".data := by
  decide

/-- C4 counterexample: in prediction mode, the non-blank non-header line
`"- -"` (whose `cleanBullet` normalization is empty) is appended to the
active section list as an empty string. -/
theorem c4_counterexample :
    trimChars "- -".data ≠ [] ∧
    resolveSection (trimChars "- -".data) = none ∧
    cleanBullet (trimChars "- -".data) = [] ∧
    (buildStructuredResult "Red flags:\n- -".data).redFlags = [[]] := by
  refine ⟨by decide, by rfl, by rfl, by rfl⟩

/-- C4 (amended): in report mode the property holds: a line that is not a
header and whose normalized content is empty leaves the dispatcher state
(every bucket, the disclaimer and the active section) unchanged. -/
theorem c4_report_blank_normalized_skipped :
    ∀ (st : ReportResult × RSection) (line : List Char),
      resolveReportSection line = none → stripMarkers line = [] →
      reportStep st line = st := by
  intro st line h1 h2
  by_cases hl : line = []
  · simp [reportStep, hl]
  · simp [reportStep, hl, h1, h2]

/-- C4 witness: the amended theorem applied at the line `"-"` in the
intro state. -/
theorem c4_witness :
    resolveReportSection "-".data = none ∧ stripMarkers "-".data = [] ∧
      reportStep (emptyReport, RSection.intro) "-".data =
        (emptyReport, RSection.intro) :=
  ⟨by rfl, by rfl,
    c4_report_blank_normalized_skipped (emptyReport, RSection.intro) "-".data
      (by rfl) (by rfl)⟩

/-- C5 counterexample: for the bullet line `"- : **High**"`, whose body is
empty after normalization, confidence-span removal and leading-separator
stripping, `parseCondition` still produces a record (with empty title and
summary), contrary to the claim that no record is produced. -/
theorem c5_counterexample :
    parseCondition "- : **High**".data = some ⟨[], [], "High".data, 75⟩ := by
  rfl

/-- C5 (amended): a record is suppressed exactly when the body is already
empty after step 1 (the `cleanBullet` normalization); emptiness arising
only after steps 2 and 3 does not suppress the record. -/
theorem c5_blank_after_clean_no_record :
    ∀ line : List Char, cleanBullet line = [] → parseCondition line = none := by
  intro line h
  simp [parseCondition, h]

/-- C5 witness: the amended theorem applied at the line `"---"`. -/
theorem c5_witness :
    cleanBullet "---".data = [] ∧ parseCondition "---".data = none :=
  ⟨by rfl, c5_blank_after_clean_no_record "---".data (by rfl)⟩

/-- A fold keeps its start state when every step fixes it. -/
theorem foldl_fixed {α β : Type} (f : β → α → β) :
    ∀ (ls : List α) (st : β), (∀ l ∈ ls, f st l = st) → ls.foldl f st = st := by
  intro ls
  induction ls with
  | nil => simp
  | cons l ls ih =>
    intro st h
    simp only [List.foldl_cons, h l (by simp)]
    exact ih st (fun l' hl' => h l' (by simp [hl']))

/-- A fold preserves any invariant its step preserves. -/
theorem foldl_preserve {α β : Type} (f : β → α → β) (P : β → Prop) :
    ∀ (ls : List α) (st : β), (∀ st' l, l ∈ ls → P st' → P (f st' l)) →
      P st → P (ls.foldl f st) := by
  intro ls
  induction ls with
  | nil => intro st _ h; simpa using h
  | cons l ls ih =>
    intro st hstep h
    simp only [List.foldl_cons]
    exact ih _ (fun st' l' hl' => hstep st' l' (by simp [hl']))
      (hstep st l (by simp) h)

/-- The newline split never returns an empty list of lines. -/
theorem splitNL_ne_nil : ∀ s : List Char, splitNL s ≠ [] := by
  intro s
  induction s with
  | nil => rw [splitNL.eq_1]; simp
  | cons c rest ih =>
    by_cases h : c = '\n'
    · subst h; rw [splitNL.eq_2]; simp
    · rw [splitNL.eq_3 c rest (fun hh => h hh)]
      rcases hE : splitNL rest with _ | ⟨l0, ls0⟩
      · exact absurd hE ih
      · simp

/-- Every character of every newline-split piece is a character of the
input. -/
theorem mem_of_mem_splitNL :
    ∀ (s : List Char) (l : List Char), l ∈ splitNL s → ∀ c ∈ l, c ∈ s := by
  intro s
  induction s with
  | nil =>
    intro l hl c hc
    rw [splitNL.eq_1] at hl
    simp at hl
    subst hl
    simp at hc
  | cons a rest ih =>
    intro l hl c hc
    by_cases ha : a = '\n'
    · subst ha
      rw [splitNL.eq_2] at hl
      rcases List.mem_cons.mp hl with h | h
      · subst h; simp at hc
      · exact List.mem_cons_of_mem _ (ih l h c hc)
    · rw [splitNL.eq_3 a rest (fun hh => ha hh)] at hl
      rcases hE : splitNL rest with _ | ⟨l0, ls0⟩
      · exact absurd hE (splitNL_ne_nil rest)
      · rw [hE] at hl
        change l ∈ (a :: l0) :: ls0 at hl
        rcases List.mem_cons.mp hl with h | h
        · subst h
          rcases List.mem_cons.mp hc with h' | h'
          · simp [h']
          · exact List.mem_cons_of_mem _
              (ih l0 (by rw [hE]; exact List.mem_cons_self _ _) c h')
        · exact List.mem_cons_of_mem _
            (ih l (by rw [hE]; exact List.mem_cons_of_mem _ h) c hc)

/-- Removing a trailing carriage return keeps only characters of the
original piece. -/
theorem mem_of_mem_dropTrailCR :
    ∀ (l : List Char) (c : Char), c ∈ dropTrailCR l → c ∈ l := by
  intro l
  induction l with
  | nil => intro c hc; rw [dropTrailCR.eq_1] at hc; simp at hc
  | cons a rest ih =>
    intro c hc
    by_cases h : a = '\r' ∧ rest = []
    · obtain ⟨rfl, rfl⟩ := h
      rw [dropTrailCR.eq_2] at hc
      simp at hc
    · rw [dropTrailCR.eq_3 a rest (fun h1 h2 => h ⟨h1, h2⟩)] at hc
      rcases List.mem_cons.mp hc with hcc | hcc
      · simp [hcc]
      · exact List.mem_cons_of_mem _ (ih c hcc)

/-- Trimming a whitespace-only string yields the empty string. -/
theorem trimChars_eq_nil_of_ws (l : List Char) (h : ∀ c ∈ l, jsWS c = true) :
    trimChars l = [] := by
  unfold trimChars
  rw [List.dropWhile_eq_nil_iff.mpr h]
  rfl

/-- A line whose trimmed form is empty leaves the prediction-mode state
unchanged. -/
theorem predStep_blank (st : StructuredResult × PSection) (l : List Char)
    (h : trimChars l = []) : predStep st l = st := by
  simp [predStep, h]

/-- An empty (pre-trimmed) line leaves the report-mode state unchanged. -/
theorem reportStep_blank (st : ReportResult × RSection) :
    reportStep st [] = st := by
  simp [reportStep]

/-- C2: for every input all of whose characters are whitespace (which
covers the empty string, and the `null` input that the code's falsiness
check sends through the same early return), both parsers return the
fully-empty result object. Both parsers are total functions into the
fully-populated result structures by construction, so termination and
well-formedness hold for every input. -/
theorem c2_whitespace_gives_empty :
    ∀ s : List Char, (∀ c ∈ s, jsWS c = true) →
      buildStructuredResult s = emptyStructured ∧
        buildReportStructure s = emptyReport := by
  intro s hws
  have hlines : ∀ l ∈ splitLines s, trimChars l = [] := by
    intro l hl
    apply trimChars_eq_nil_of_ws
    intro c hc
    obtain ⟨l0, hl0, rfl⟩ := List.mem_map.mp hl
    exact hws c (mem_of_mem_splitNL s l0 hl0 c (mem_of_mem_dropTrailCR l0 c hc))
  constructor
  · by_cases h0 : s = []
    · simp [buildStructuredResult, h0]
    · unfold buildStructuredResult
      rw [if_neg h0]
      rw [foldl_fixed predStep (splitLines s) (emptyStructured, PSection.intro)
        (fun l hl => predStep_blank _ l (hlines l hl))]
      rfl
  · by_cases h0 : s = []
    · simp [buildReportStructure, h0]
    · unfold buildReportStructure
      rw [if_neg h0]
      have : ∀ l ∈ (splitLines s).map trimChars,
          reportStep (emptyReport, RSection.intro) l =
            (emptyReport, RSection.intro) := by
        intro l hl
        obtain ⟨l0, hl0, rfl⟩ := List.mem_map.mp hl
        rw [hlines l0 hl0]
        exact reportStep_blank _
      rw [foldl_fixed reportStep ((splitLines s).map trimChars)
        (emptyReport, RSection.intro) this]
      rfl

/-- C2 witness: the theorem applied to a whitespace-only input. -/
theorem c2_witness :
    (∀ c ∈ "  \t\n ".data, jsWS c = true) ∧
      buildStructuredResult "  \t\n ".data = emptyStructured ∧
        buildReportStructure "  \t\n ".data = emptyReport :=
  ⟨by decide,
    (c2_whitespace_gives_empty "  \t\n ".data (by decide)).1,
    (c2_whitespace_gives_empty "  \t\n ".data (by decide)).2⟩

/-- Dropping a leading run of the class `p` leaves a head outside `p`. -/
theorem headSat_dropWhile (p : Char → Bool) :
    ∀ l : List Char, headSat p (l.dropWhile p) = true := by
  intro l
  induction l with
  | nil => rfl
  | cons c rest ih =>
    by_cases h : p c
    · simpa [List.dropWhile_cons, h] using ih
    · simp [List.dropWhile_cons, h, headSat]

/-- Dropping a leading run of `p` is a no-op when the head is outside `p`. -/
theorem dropWhile_of_headSat (p : Char → Bool) :
    ∀ l : List Char, headSat p l = true → l.dropWhile p = l := by
  intro l h
  cases l with
  | nil => rfl
  | cons c rest =>
    simp only [headSat, Bool.not_eq_true'] at h
    simp [List.dropWhile_cons, h]

/-- A head outside a larger class is outside any smaller class. -/
theorem headSat_of_subset (p q : Char → Bool)
    (hsub : ∀ c, q c = true → p c = true) :
    ∀ l : List Char, headSat p l = true → headSat q l = true := by
  intro l h
  cases l with
  | nil => rfl
  | cons c rest =>
    simp only [headSat, Bool.not_eq_true'] at h ⊢
    cases hq : q c
    · rfl
    · exact absurd (hsub c hq) (by simp [h])

/-- Trailing-whitespace removal either empties a cons cell or keeps its
head and recurses. -/
theorem trimRight_shape (c : Char) (rest : List Char) :
    trimRight (c :: rest) = [] ∨ trimRight (c :: rest) = c :: trimRight rest := by
  simp only [trimRight]
  split
  · exact Or.inl rfl
  · exact Or.inr rfl

/-- Trailing-whitespace removal preserves a head outside any class. -/
theorem headSat_trimRight (p : Char → Bool) :
    ∀ l : List Char, headSat p l = true → headSat p (trimRight l) = true := by
  intro l h
  cases l with
  | nil => rfl
  | cons c rest =>
    rcases trimRight_shape c rest with h1 | h1 <;> rw [h1]
    · rfl
    · simpa [headSat] using h

/-- Trailing-whitespace removal is idempotent. -/
theorem trimRight_idem : ∀ l : List Char, trimRight (trimRight l) = trimRight l := by
  intro l
  induction l with
  | nil => rfl
  | cons c rest ih =>
    by_cases hcond : (trimRight rest = [] && jsWS c) = true
    · have h1 : trimRight (c :: rest) = [] := by
        simp only [trimRight]
        rw [if_pos hcond]
      rw [h1]
      rfl
    · have h1 : trimRight (c :: rest) = c :: trimRight rest := by
        simp only [trimRight]
        rw [if_neg hcond]
      rw [h1]
      simp only [trimRight, ih]
      rw [if_neg hcond]

/-- The tail of a whitespace-normal list is whitespace-normal. -/
theorem wsNormed_tail (c : Char) (rest : List Char)
    (h : wsNormed (c :: rest) = true) : wsNormed rest = true := by
  simp only [wsNormed, Bool.and_eq_true] at h
  exact h.2

/-- The head condition carried by a whitespace-normal cons cell. -/
theorem wsNormed_head (c : Char) (rest : List Char)
    (h : wsNormed (c :: rest) = true) :
    jsWS c = false ∨ (c = ' ' ∧ headNotWS rest = true) := by
  simp only [wsNormed, Bool.and_eq_true, Bool.or_eq_true, Bool.not_eq_true',
    decide_eq_true_eq] at h
  exact h.1

/-- Dropping a leading run preserves whitespace-normality. -/
theorem wsNormed_dropWhile (p : Char → Bool) :
    ∀ l : List Char, wsNormed l = true → wsNormed (l.dropWhile p) = true := by
  intro l
  induction l with
  | nil => intro h; exact h
  | cons c rest ih =>
    intro h
    by_cases hc : p c
    · simp only [List.dropWhile_cons, hc, if_true]
      exact ih (wsNormed_tail c rest h)
    · simpa [List.dropWhile_cons, hc] using h

/-- Inside an already-replaced whitespace run, the collapse scan next
emits a non-whitespace character (or nothing). -/
theorem headNotWS_collapseWSAux_true :
    ∀ s : List Char, headNotWS (collapseWSAux true s) = true := by
  intro s
  induction s with
  | nil => rfl
  | cons c rest ih =>
    by_cases h : jsWS c
    · simpa [collapseWSAux, h] using ih
    · simp [collapseWSAux, h, headNotWS, headSat]

/-- The collapse scan entered outside a run keeps a head that lies
outside any class containing all whitespace. -/
theorem headSat_collapseWSAux_false (p : Char → Bool)
    (hmono : ∀ c, jsWS c = true → p c = true) :
    ∀ s : List Char, headSat p s = true →
      headSat p (collapseWSAux false s) = true := by
  intro s h
  cases s with
  | nil => rfl
  | cons c rest =>
    simp only [headSat, Bool.not_eq_true'] at h
    have hws : jsWS c = false := by
      cases hjs : jsWS c
      · rfl
      · exact absurd (hmono c hjs) (by simp [h])
    simp [collapseWSAux, hws, headSat, h]

/-- The collapse scan always produces a whitespace-normal string. -/
theorem wsNormed_collapseWSAux :
    ∀ (s : List Char) (b : Bool), wsNormed (collapseWSAux b s) = true := by
  intro s
  induction s with
  | nil => intro b; rfl
  | cons c rest ih =>
    intro b
    by_cases h : jsWS c
    · cases b with
      | true => simpa [collapseWSAux, h] using ih true
      | false =>
        simp only [collapseWSAux, h, if_true]
        simp only [wsNormed, Bool.and_eq_true]
        refine ⟨?_, ih true⟩
        simp [headNotWS_collapseWSAux_true rest]
    · simp only [collapseWSAux, h]
      simp only [wsNormed, Bool.and_eq_true]
      exact ⟨by simp [h], ih false⟩

/-- The collapse scan fixes whitespace-normal strings (when entered in a
run state only with a non-whitespace head). -/
theorem collapseWSAux_fixed :
    ∀ (s : List Char) (b : Bool), wsNormed s = true →
      (b = true → headNotWS s = true) → collapseWSAux b s = s := by
  intro s
  induction s with
  | nil => intro b _ _; rfl
  | cons c rest ih =>
    intro b h hb
    rcases wsNormed_head c rest h with hc | ⟨hc, hrest⟩
    · simp only [collapseWSAux, hc]
      rw [ih false (wsNormed_tail c rest h) (by simp)]
      simp
    · subst hc
      have hws : jsWS ' ' = true := by decide
      cases b with
      | true =>
        exfalso
        have hhd := hb rfl
        simp [headNotWS, headSat, hws] at hhd
      | false =>
        simp only [collapseWSAux, hws, if_true]
        rw [ih true (wsNormed_tail _ rest h) (fun _ => hrest)]
        simp

/-- Trailing-whitespace removal preserves whitespace-normality. -/
theorem wsNormed_trimRight :
    ∀ l : List Char, wsNormed l = true → wsNormed (trimRight l) = true := by
  intro l
  induction l with
  | nil => intro h; exact h
  | cons c rest ih =>
    intro h
    have htail := wsNormed_tail c rest h
    rcases trimRight_shape c rest with h1 | h1 <;> rw [h1]
    · rfl
    · simp only [wsNormed, Bool.and_eq_true]
      refine ⟨?_, ih htail⟩
      rcases wsNormed_head c rest h with hc | ⟨hc, hrest⟩
      · simp [hc]
      · subst hc
        have h2 : headNotWS (trimRight rest) = true :=
          headSat_trimRight jsWS rest hrest
        simp [headNotWS] at h2
        simp [headNotWS, h2]

/-- C3 (amended): the prediction-mode normalizer `cleanBullet` is
idempotent, as the claim states; the report-mode normalizer
`stripMarkers` is not (see the counterexample), because it strips only
one leading marker character per call. -/
theorem c3_cleanBullet_idempotent (s : List Char) :
    cleanBullet (cleanBullet s) = cleanBullet s := by
  have hmono : ∀ c, jsWS c = true → isBulletChar c = true := by
    intro c h
    simp [isBulletChar, h]
  set u := s.dropWhile isBulletChar with hu
  set v := collapseWSAux false u with hv
  set w := v.dropWhile jsWS with hw
  set r := trimRight w with hr
  have hcs : cleanBullet s = r := rfl
  have hu_head : headSat isBulletChar u = true := headSat_dropWhile isBulletChar s
  have hv_head : headSat isBulletChar v = true :=
    headSat_collapseWSAux_false isBulletChar hmono u hu_head
  have hv_headws : headSat jsWS v = true :=
    headSat_of_subset isBulletChar jsWS hmono v hv_head
  have hw_eq : w = v := dropWhile_of_headSat jsWS v hv_headws
  have hw_head : headSat isBulletChar w = true := by rw [hw_eq]; exact hv_head
  have hr_head : headSat isBulletChar r = true := headSat_trimRight isBulletChar w hw_head
  have hr_headws : headSat jsWS r = true :=
    headSat_of_subset isBulletChar jsWS hmono r hr_head
  have hnorm_v : wsNormed v = true := wsNormed_collapseWSAux u false
  have hnorm_w : wsNormed w = true := wsNormed_dropWhile jsWS v hnorm_v
  have hnorm_r : wsNormed r = true := wsNormed_trimRight w hnorm_w
  have hfix : cleanBullet r = r := by
    calc cleanBullet r
        = trimRight ((collapseWSAux false (r.dropWhile isBulletChar)).dropWhile jsWS) := rfl
      _ = trimRight ((collapseWSAux false r).dropWhile jsWS) := by
          rw [dropWhile_of_headSat isBulletChar r hr_head]
      _ = trimRight (r.dropWhile jsWS) := by
          rw [collapseWSAux_fixed r false hnorm_r (by simp)]
      _ = trimRight r := by rw [dropWhile_of_headSat jsWS r hr_headws]
      _ = r := by rw [hr]; exact trimRight_idem w
  rw [hcs, hfix]

/-- A list begins with its own prefix. -/
theorem beginsWith_append_self :
    ∀ (pat rest : List Char), beginsWith (pat ++ rest) pat = true := by
  intro pat
  induction pat with
  | nil => intro rest; cases rest <;> rfl
  | cons p ps ih => intro rest; simp [beginsWith, ih]

/-- A pattern at the very front is contained as a substring. -/
theorem containsSub_of_begins :
    ∀ (s pat : List Char), beginsWith s pat = true → containsSub s pat = true := by
  intro s pat h
  cases s with
  | nil => simpa [containsSub, anySuffix] using h
  | cons c rest => simp [containsSub, anySuffix, h]

/-- Substring containment is stable under prepending. -/
theorem containsSub_append_left :
    ∀ (x y pat : List Char), containsSub y pat = true →
      containsSub (x ++ y) pat = true := by
  intro x
  induction x with
  | nil => intro y pat h; simpa using h
  | cons c xs ih =>
    intro y pat h
    have h2 := ih y pat h
    simp only [containsSub] at h2 ⊢
    simp [List.cons_append, anySuffix, h2]

/-- C6: the confidence mapping is the stated case-insensitive substring
match with precedence high, then medium/med, then low, then the default
60 (also taken by the empty label); and any label with `high` anywhere
in it maps to 75 regardless of the surrounding text. -/
theorem c6_confidence_mapping :
    (∀ label : List Char,
      (containsSub (lowerStr label) "high".data = true → mapConfidence label = 75) ∧
      (containsSub (lowerStr label) "high".data = false →
        (containsSub (lowerStr label) "medium".data = true ∨
          containsSub (lowerStr label) "med".data = true) →
        mapConfidence label = 55) ∧
      (containsSub (lowerStr label) "high".data = false →
        containsSub (lowerStr label) "medium".data = false →
        containsSub (lowerStr label) "med".data = false →
        containsSub (lowerStr label) "low".data = true → mapConfidence label = 35) ∧
      (containsSub (lowerStr label) "high".data = false →
        containsSub (lowerStr label) "medium".data = false →
        containsSub (lowerStr label) "med".data = false →
        containsSub (lowerStr label) "low".data = false → mapConfidence label = 60)) ∧
    (∀ pre suf : List Char, mapConfidence (pre ++ "high".data ++ suf) = 75) ∧
    mapConfidence [] = 60 := by
  refine ⟨?_, ?_, by rfl⟩
  · intro label
    refine ⟨?_, ?_, ?_, ?_⟩
    · intro h
      simp [mapConfidence, h]
    · intro h1 h2
      rcases h2 with h2 | h2 <;> simp [mapConfidence, h1, h2]
    · intro h1 h2 h3 h4
      simp [mapConfidence, h1, h2, h3, h4]
    · intro h1 h2 h3 h4
      simp [mapConfidence, h1, h2, h3, h4]
  · intro pre suf
    have hmap : List.map Char.toLower "high".data = "high".data := by decide
    have hlow : lowerStr (pre ++ "high".data ++ suf)
        = lowerStr pre ++ ("high".data ++ lowerStr suf) := by
      simp [lowerStr, List.map_append, hmap]
    have hc : containsSub (lowerStr (pre ++ "high".data ++ suf)) "high".data = true := by
      rw [hlow]
      exact containsSub_append_left _ _ _
        (containsSub_of_begins _ _ (beginsWith_append_self "high".data (lowerStr suf)))
    simp only [mapConfidence]
    rw [hc]
    simp

/-- C6 witness: the theorem applied at four concrete labels, one per
branch of the mapping. -/
theorem c6_witness :
    mapConfidence "HIGHLY unlikely".data = 75 ∧
      mapConfidence "Medium-ish".data = 55 ∧
        mapConfidence "lowish".data = 35 ∧
          mapConfidence "unsure".data = 60 :=
  ⟨(c6_confidence_mapping.1 "HIGHLY unlikely".data).1 (by decide),
    (c6_confidence_mapping.1 "Medium-ish".data).2.1 (by decide)
      (Or.inr (by decide)),
    (c6_confidence_mapping.1 "lowish".data).2.2.1 (by decide) (by decide)
      (by decide) (by decide),
    (c6_confidence_mapping.1 "unsure".data).2.2.2 (by decide) (by decide)
      (by decide) (by decide)⟩

/-- A recognized header line switches the section and stores nothing. -/
theorem predStep_header (st : StructuredResult × PSection) (l : List Char)
    (s : PSection) (h : trimChars l ≠ [])
    (hr : resolveSection (trimChars l) = some s) :
    predStep st l = (st.1, s) := by
  simp [predStep, h, hr]

/-- Content routing in the intro state. -/
theorem predStep_intro (base : StructuredResult) (l : List Char)
    (h : trimChars l ≠ []) (hr : resolveSection (trimChars l) = none) :
    predStep (base, PSection.intro) l =
      ({ base with
          introParagraphs := base.introParagraphs ++ [cleanBullet (trimChars l)] },
        PSection.intro) := by
  simp [predStep, h, hr]

/-- Content routing in the disclaimer state. -/
theorem predStep_disclaimer (base : StructuredResult) (l : List Char)
    (h : trimChars l ≠ []) (hr : resolveSection (trimChars l) = none) :
    predStep (base, PSection.disclaimer) l =
      ({ base with
          disclaimer := base.disclaimer ++ cleanBullet (trimChars l) ++ [' '] },
        PSection.disclaimer) := by
  simp [predStep, h, hr]

/-- The bucket of a section is untouched by one step that neither starts
that section nor runs inside it. -/
theorem predStep_bucket (t : PSection) (st : StructuredResult × PSection)
    (l : List Char) (hres : resolveSection (trimChars l) ≠ some t)
    (hsec : st.2 ≠ t) :
    bucketEq t (predStep st l).1 st.1 ∧ (predStep st l).2 ≠ t := by
  have hrefl : ∀ a, bucketEq t a a := by intro a; cases t <;> rfl
  by_cases h : trimChars l = []
  · rw [predStep_blank st l h]
    exact ⟨hrefl _, hsec⟩
  · cases hr : resolveSection (trimChars l) with
    | some s =>
      have hst : s ≠ t := fun he => hres (by rw [hr, he])
      rw [predStep_header st l s h hr]
      exact ⟨hrefl _, hst⟩
    | none =>
      rcases st with ⟨base, sec⟩
      have hsec' : sec ≠ t := hsec
      cases sec <;> cases t <;>
        simp_all [predStep, bucketEq, h, hr] <;>
        (repeat' split) <;> simp_all [bucketEq]

/-- Bucket equality composes. -/
theorem bucketEq_trans (t : PSection) (a b c : StructuredResult)
    (h1 : bucketEq t a b) (h2 : bucketEq t b c) : bucketEq t a c := by
  cases t <;> exact h1.trans h2

/-- Over a whole run, a section whose header never resolves keeps its
start bucket, provided the run does not start inside it. -/
theorem predFold_bucket (t : PSection) :
    ∀ (ls : List (List Char)) (st : StructuredResult × PSection),
      (∀ l ∈ ls, resolveSection (trimChars l) ≠ some t) → st.2 ≠ t →
      bucketEq t (ls.foldl predStep st).1 st.1 ∧
        (ls.foldl predStep st).2 ≠ t := by
  intro ls
  induction ls with
  | nil =>
    intro st _ h
    exact ⟨by cases t <;> rfl, h⟩
  | cons l ls ih =>
    intro st hres h
    have hstep := predStep_bucket t st l (hres l (by simp)) h
    have hrec := ih (predStep st l) (fun l' hl' => hres l' (by simp [hl'])) hstep.2
    rw [List.foldl_cons]
    exact ⟨bucketEq_trans t _ _ _ hrec.1 hstep.1, hrec.2⟩

/-- Only a line satisfying a section's own rule can resolve to that
section. -/
theorem resolveSection_rule (x : List Char) :
    (resolveSection x = some PSection.conditions → condRule x = true) ∧
    (resolveSection x = some PSection.redFlags → redFlagsRule x = true) ∧
    (resolveSection x = some PSection.selfCare → selfCareRule x = true) ∧
    (resolveSection x = some PSection.specialist → specialistRule x = true) ∧
    (resolveSection x = some PSection.disclaimer → disclaimerRule x = true) := by
  refine ⟨?_, ?_, ?_, ?_, ?_⟩ <;>
    (intro h
     by_cases h1 : condRule x = true <;>
       by_cases h2 : redFlagsRule x = true <;>
         by_cases h3 : selfCareRule x = true <;>
           by_cases h4 : specialistRule x = true <;>
             by_cases h5 : disclaimerRule x = true <;>
               simp_all [resolveSection])

/-- A run in which no line resolves to any section accumulates all
normalized non-blank content into the intro bucket. -/
theorem predFold_allnone :
    ∀ (ls : List (List Char)) (base : StructuredResult),
      (∀ l ∈ ls, resolveSection (trimChars l) = none) →
      ls.foldl predStep (base, PSection.intro) =
        ({ base with
            introParagraphs := base.introParagraphs ++ predPieces ls },
          PSection.intro) := by
  intro ls
  induction ls with
  | nil =>
    intro base _
    simp [predPieces]
  | cons l ls ih =>
    intro base h
    have htail : ∀ l' ∈ ls, resolveSection (trimChars l') = none :=
      fun l' hl' => h l' (by simp [hl'])
    by_cases hb : trimChars l = []
    · rw [List.foldl_cons, predStep_blank _ l hb, ih base htail]
      have hp : predPieces (l :: ls) = predPieces ls := by
        simp [predPieces, hb]
      rw [hp]
    · rw [List.foldl_cons, predStep_intro base l hb (h l (by simp))]
      rw [ih _ htail]
      have hp : predPieces (l :: ls) =
          cleanBullet (trimChars l) :: predPieces ls := by
        simp [predPieces, hb]
      rw [hp]
      simp [List.append_assoc]

/-- C7: a section whose header rule no input line satisfies ends with an
empty bucket; when no line resolves to any header, all content lands in
the intro bucket (Scenario B included as the final conjunct). -/
theorem c7_section_needs_header :
    (∀ s : List Char,
      ((∀ l ∈ splitLines s, condRule (trimChars l) = false) →
        (buildStructuredResult s).conditions = []) ∧
      ((∀ l ∈ splitLines s, redFlagsRule (trimChars l) = false) →
        (buildStructuredResult s).redFlags = []) ∧
      ((∀ l ∈ splitLines s, selfCareRule (trimChars l) = false) →
        (buildStructuredResult s).selfCare = []) ∧
      ((∀ l ∈ splitLines s, specialistRule (trimChars l) = false) →
        (buildStructuredResult s).specialist = []) ∧
      ((∀ l ∈ splitLines s, disclaimerRule (trimChars l) = false) →
        (buildStructuredResult s).disclaimer = []) ∧
      ((∀ l ∈ splitLines s, resolveSection (trimChars l) = none) →
        buildStructuredResult s =
          { emptyStructured with introParagraphs := predPieces (splitLines s) })) ∧
    buildStructuredResult "Take rest and drink water.".data =
      { emptyStructured with
          introParagraphs := ["Take rest and drink water.".data] } := by
  constructor
  · intro s
    by_cases h0 : s = []
    · subst h0
      refine ⟨fun _ => rfl, fun _ => rfl, fun _ => rfl, fun _ => rfl,
        fun _ => rfl, fun _ => ?_⟩
      rfl
    · have hbs : buildStructuredResult s =
          { ((splitLines s).foldl predStep (emptyStructured, PSection.intro)).1 with
              disclaimer :=
                trimChars
                  ((splitLines s).foldl predStep
                    (emptyStructured, PSection.intro)).1.disclaimer } := by
        simp [buildStructuredResult, h0]
      refine ⟨?_, ?_, ?_, ?_, ?_, ?_⟩
      · intro hrule
        have hfold := predFold_bucket PSection.conditions (splitLines s)
          (emptyStructured, PSection.intro)
          (fun l hl he => by
            have := (resolveSection_rule (trimChars l)).1 he
            rw [hrule l hl] at this
            exact Bool.false_ne_true this)
          (by simp)
        rw [hbs]
        exact hfold.1
      · intro hrule
        have hfold := predFold_bucket PSection.redFlags (splitLines s)
          (emptyStructured, PSection.intro)
          (fun l hl he => by
            have := (resolveSection_rule (trimChars l)).2.1 he
            rw [hrule l hl] at this
            exact Bool.false_ne_true this)
          (by simp)
        rw [hbs]
        exact hfold.1
      · intro hrule
        have hfold := predFold_bucket PSection.selfCare (splitLines s)
          (emptyStructured, PSection.intro)
          (fun l hl he => by
            have := (resolveSection_rule (trimChars l)).2.2.1 he
            rw [hrule l hl] at this
            exact Bool.false_ne_true this)
          (by simp)
        rw [hbs]
        exact hfold.1
      · intro hrule
        have hfold := predFold_bucket PSection.specialist (splitLines s)
          (emptyStructured, PSection.intro)
          (fun l hl he => by
            have := (resolveSection_rule (trimChars l)).2.2.2.1 he
            rw [hrule l hl] at this
            exact Bool.false_ne_true this)
          (by simp)
        rw [hbs]
        exact hfold.1
      · intro hrule
        have hfold := predFold_bucket PSection.disclaimer (splitLines s)
          (emptyStructured, PSection.intro)
          (fun l hl he => by
            have := (resolveSection_rule (trimChars l)).2.2.2.2 he
            rw [hrule l hl] at this
            exact Bool.false_ne_true this)
          (by simp)
        rw [hbs]
        have hd : ((splitLines s).foldl predStep
            (emptyStructured, PSection.intro)).1.disclaimer = [] := hfold.1
        simp [hd]
        rfl
      · intro hnone
        rw [hbs, predFold_allnone (splitLines s) emptyStructured hnone]
        rfl
  · rfl

/-- C7 witness: the theorem applied at the Scenario B input, with every
hypothesis discharged by computation. -/
theorem c7_witness :
    (∀ l ∈ splitLines "Take rest and drink water.".data,
        redFlagsRule (trimChars l) = false) ∧
      (buildStructuredResult "Take rest and drink water.".data).redFlags = [] ∧
        (∀ l ∈ splitLines "Take rest and drink water.".data,
            resolveSection (trimChars l) = none) ∧
          buildStructuredResult "Take rest and drink water.".data =
            { emptyStructured with
                introParagraphs :=
                  predPieces (splitLines "Take rest and drink water.".data) } :=
  ⟨by decide,
    ((c7_section_needs_header.1 "Take rest and drink water.".data).2.1 (by decide)),
    by decide,
    ((c7_section_needs_header.1 "Take rest and drink water.".data).2.2.2.2.2
      (by decide))⟩

/-- Appending one trailing whitespace character does not change the
right trim. -/
theorem trimRight_append_ws :
    ∀ (z : List Char) (c : Char), jsWS c = true →
      trimRight (z ++ [c]) = trimRight z := by
  intro z c hc
  induction z with
  | nil => simp [trimRight, hc]
  | cons a z ih =>
    have ih2 : trimRight (z.append [c]) = trimRight z := ih
    simp only [List.cons_append, trimRight, ih, ih2]

/-- Appending one trailing whitespace character does not change the
full trim. -/
theorem trimChars_append_ws (x : List Char) (c : Char) (hc : jsWS c = true) :
    trimChars (x ++ [c]) = trimChars x := by
  unfold trimChars
  rw [List.dropWhile_append]
  by_cases h : (x.dropWhile jsWS).isEmpty
  · rw [if_pos h]
    have h1 : List.dropWhile jsWS [c] = [] := by
      simp [List.dropWhile_cons, hc]
    have h2 : x.dropWhile jsWS = [] := by
      simpa using h
    rw [h1, h2]
  · rw [if_neg h]
    exact trimRight_append_ws _ c hc

/-- The code's append-space accumulation equals the single-space join
followed by one extra trailing space. -/
theorem spacedConcat_eq_joinSpaces :
    ∀ ps : List (List Char), ps ≠ [] →
      spacedConcat ps = joinSpaces ps ++ [' '] := by
  intro ps
  induction ps with
  | nil => intro h; exact absurd rfl h
  | cons x ps ih =>
    intro _
    cases ps with
    | nil => simp [spacedConcat, joinSpaces]
    | cons y ps' =>
      have hx : spacedConcat (x :: y :: ps') = x ++ [' '] ++ spacedConcat (y :: ps') := by
        simp [spacedConcat]
      have hj : joinSpaces (x :: y :: ps') = x ++ [' '] ++ joinSpaces (y :: ps') := rfl
      rw [hx, ih (by simp), hj]
      simp [List.append_assoc]

/-- After the final trim, the accumulated disclaimer equals the trimmed
single-space join of its pieces. -/
theorem trim_spacedConcat (ps : List (List Char)) :
    trimChars (spacedConcat ps) = trimChars (joinSpaces ps) := by
  cases hps : ps with
  | nil => rfl
  | cons x ps' =>
    rw [← hps, spacedConcat_eq_joinSpaces ps (by rw [hps]; simp),
      trimChars_append_ws _ ' ' (by decide)]

/-- Content routing in the report-mode disclaimer state. -/
theorem reportStep_disclaimer (base : ReportResult) (l : List Char)
    (h : l ≠ []) (hr : resolveReportSection l = none)
    (hc : stripMarkers l ≠ []) :
    reportStep (base, RSection.disclaimer) l =
      ({ base with disclaimer := base.disclaimer ++ stripMarkers l ++ [' '] },
        RSection.disclaimer) := by
  simp [reportStep, h, hr, hc]

/-- Prediction-mode disclaimer accumulation over a header-free run. -/
theorem predFold_disclaimer :
    ∀ (ls : List (List Char)) (base : StructuredResult),
      (∀ l ∈ ls, resolveSection (trimChars l) = none) →
      ls.foldl predStep (base, PSection.disclaimer) =
        ({ base with
            disclaimer := base.disclaimer ++ spacedConcat (predPieces ls) },
          PSection.disclaimer) := by
  intro ls
  induction ls with
  | nil =>
    intro base _
    simp [predPieces, spacedConcat]
  | cons l ls ih =>
    intro base h
    have htail : ∀ l' ∈ ls, resolveSection (trimChars l') = none :=
      fun l' hl' => h l' (by simp [hl'])
    by_cases hb : trimChars l = []
    · rw [List.foldl_cons, predStep_blank _ l hb, ih base htail]
      have hp : predPieces (l :: ls) = predPieces ls := by
        simp [predPieces, hb]
      rw [hp]
    · rw [List.foldl_cons, predStep_disclaimer base l hb (h l (by simp))]
      rw [ih _ htail]
      have hp : predPieces (l :: ls) =
          cleanBullet (trimChars l) :: predPieces ls := by
        simp [predPieces, hb]
      have hs : spacedConcat (cleanBullet (trimChars l) :: predPieces ls) =
          cleanBullet (trimChars l) ++ [' '] ++ spacedConcat (predPieces ls) := by
        simp [spacedConcat]
      rw [hp, hs]
      simp [List.append_assoc]

/-- Report-mode disclaimer accumulation over a header-free run. -/
theorem reportFold_disclaimer :
    ∀ (ls : List (List Char)) (base : ReportResult),
      (∀ l ∈ ls, resolveReportSection l = none) →
      ls.foldl reportStep (base, RSection.disclaimer) =
        ({ base with
            disclaimer := base.disclaimer ++ spacedConcat (reportPieces ls) },
          RSection.disclaimer) := by
  intro ls
  induction ls with
  | nil =>
    intro base _
    simp [reportPieces, spacedConcat]
  | cons l ls ih =>
    intro base h
    have htail : ∀ l' ∈ ls, resolveReportSection l' = none :=
      fun l' hl' => h l' (by simp [hl'])
    by_cases hb : l = []
    · subst hb
      rw [List.foldl_cons, reportStep_blank, ih base htail]
      have hp : reportPieces ([] :: ls) = reportPieces ls := by
        simp [reportPieces]
      rw [hp]
    · by_cases hm : stripMarkers l = []
      · have hstep : reportStep (base, RSection.disclaimer) l =
            (base, RSection.disclaimer) := by
          simp [reportStep, hb, h l (by simp), hm]
        rw [List.foldl_cons, hstep, ih base htail]
        have hp : reportPieces (l :: ls) = reportPieces ls := by
          simp [reportPieces, hb, hm]
        rw [hp]
      · rw [List.foldl_cons,
          reportStep_disclaimer base l hb (h l (by simp)) hm, ih _ htail]
        have hp : reportPieces (l :: ls) =
            stripMarkers l :: reportPieces ls := by
          simp [reportPieces, hb, hm]
        have hs : spacedConcat (stripMarkers l :: reportPieces ls) =
            stripMarkers l ++ [' '] ++ spacedConcat (reportPieces ls) := by
          simp [spacedConcat]
        rw [hp, hs]
        simp [List.append_assoc]

/-- C8: in both modes, over a header-free run started in the disclaimer
section with an empty accumulator, the final (trimmed) disclaimer equals
the trimmed single-space join of the normalized content pieces; and at
the concrete two disclaimer lines of the claim, both full parsers return
exactly `"This is for information only."` with no trailing space. -/
theorem c8_disclaimer_join :
    (∀ (ls : List (List Char)) (base : StructuredResult),
      base.disclaimer = [] →
      (∀ l ∈ ls, resolveSection (trimChars l) = none) →
      trimChars ((ls.foldl predStep (base, PSection.disclaimer)).1.disclaimer) =
        trimChars (joinSpaces (predPieces ls))) ∧
    (∀ (ls : List (List Char)) (base : ReportResult),
      base.disclaimer = [] →
      (∀ l ∈ ls, resolveReportSection l = none) →
      trimChars ((ls.foldl reportStep (base, RSection.disclaimer)).1.disclaimer) =
        trimChars (joinSpaces (reportPieces ls))) ∧
    (buildStructuredResult "Disclaimer:\nThis is for\ninformation only.".data).disclaimer =
      "This is for information only.".data ∧
    (buildReportStructure "Disclaimer:\nThis is for\ninformation only.".data).disclaimer =
      "This is for information only.".data := by
  refine ⟨?_, ?_, by rfl, by rfl⟩
  · intro ls base hb hres
    rw [predFold_disclaimer ls base hres]
    simp only
    rw [hb, List.nil_append]
    exact trim_spacedConcat (predPieces ls)
  · intro ls base hb hres
    rw [reportFold_disclaimer ls base hres]
    simp only
    rw [hb, List.nil_append]
    exact trim_spacedConcat (reportPieces ls)

/-- C8 witness: the prediction-mode conjunct applied at the claim's two
disclaimer lines, and the report-mode conjunct at the same lines. -/
theorem c8_witness :
    emptyStructured.disclaimer = [] ∧
      (∀ l ∈ ["This is for".data, "information only.".data],
          resolveSection (trimChars l) = none) ∧
        trimChars
            ((["This is for".data, "information only.".data].foldl predStep
              (emptyStructured, PSection.disclaimer)).1.disclaimer) =
          trimChars
            (joinSpaces
              (predPieces ["This is for".data, "information only.".data])) ∧
          trimChars
              ((["This is for".data, "information only.".data].foldl reportStep
                (emptyReport, RSection.disclaimer)).1.disclaimer) =
            trimChars
              (joinSpaces
                (reportPieces ["This is for".data, "information only.".data])) :=
  ⟨rfl, by decide,
    c8_disclaimer_join.1 ["This is for".data, "information only.".data]
      emptyStructured rfl (by decide),
    c8_disclaimer_join.2.1 ["This is for".data, "information only.".data]
      emptyReport rfl (by decide)⟩

/-- C9: in report mode a header line is consumed, never stored: it only
switches the section, except that a SummaryTitle header stores its own
marker-stripped text as the summary title and reverts the section to
intro; and at the concrete Scenario C input the summary title contains
`Mild infection` while findings and diagnoses hold exactly their one
routed content line each. -/
theorem c9_headers_consumed :
    (∀ (st : ReportResult × RSection) (line : List Char) (t : RTag),
      resolveReportSection line = some t →
      reportStep st line =
        (if t = RTag.summaryTitle then
          ({ st.1 with summaryTitle := stripMarkers line }, RSection.intro)
        else (st.1, tagSection t))) ∧
    (containsSub
        (buildReportStructure
          "**Summary:** Mild infection\nKey Findings:\n- Elevated WBC\nDiagnoses:\n- Viral infection (med)".data).summaryTitle
        "Mild infection".data = true ∧
      (buildReportStructure
        "**Summary:** Mild infection\nKey Findings:\n- Elevated WBC\nDiagnoses:\n- Viral infection (med)".data).findings =
        ["Elevated WBC".data] ∧
      (buildReportStructure
        "**Summary:** Mild infection\nKey Findings:\n- Elevated WBC\nDiagnoses:\n- Viral infection (med)".data).diagnoses =
        ["Viral infection (med)".data]) := by
  constructor
  · intro st line t h
    have hline : line ≠ [] := by
      intro he
      have h0 : resolveReportSection ([] : List Char) = none := rfl
      rw [he, h0] at h
      exact Option.noConfusion h
    rcases st with ⟨base, sec⟩
    simp [reportStep, hline, h]
  · exact ⟨by rfl, by rfl, by rfl⟩

/-- C9 witness: the theorem applied at the `Key Findings:` header line in
the intro state. -/
theorem c9_witness :
    resolveReportSection "Key Findings:".data = some RTag.findings ∧
      reportStep (emptyReport, RSection.intro) "Key Findings:".data =
        (emptyReport, RSection.findings) := by
  constructor
  · decide
  · have h := c9_headers_consumed.1 (emptyReport, RSection.intro)
      "Key Findings:".data RTag.findings (by decide)
    simpa [tagSection] using h

/-- One report-mode step preserves non-emptiness of every element of the
four content lists. -/
theorem reportStep_nonempty_inv (st : ReportResult × RSection) (l : List Char)
    (h : (∀ x ∈ st.1.findings, x ≠ []) ∧ (∀ x ∈ st.1.diagnoses, x ≠ []) ∧
      (∀ x ∈ st.1.medications, x ≠ []) ∧ (∀ x ∈ st.1.followups, x ≠ [])) :
    (∀ x ∈ (reportStep st l).1.findings, x ≠ []) ∧
      (∀ x ∈ (reportStep st l).1.diagnoses, x ≠ []) ∧
        (∀ x ∈ (reportStep st l).1.medications, x ≠ []) ∧
          (∀ x ∈ (reportStep st l).1.followups, x ≠ []) := by
  rcases st with ⟨base, sec⟩
  by_cases hl : l = []
  · simpa [reportStep, hl] using h
  · cases hr : resolveReportSection l with
    | some t =>
      by_cases ht : t = RTag.summaryTitle <;>
        simp_all [reportStep, hl, hr]
    | none =>
      by_cases hm : stripMarkers l = []
      · simpa [reportStep, hl, hr, hm] using h
      · cases sec <;> simp_all [reportStep, hl, hr, hm] <;>
          (rintro x (hx | rfl)
           · first
             | exact h.1 x hx
             | exact h.2.1 x hx
             | exact h.2.2.1 x hx
             | exact h.2.2.2 x hx
           · exact hm)

/-- C10: every element of the findings, diagnoses, medications and
followups lists returned by `buildReportStructure` is a non-empty
string, because lines with empty normalized content are skipped before
routing. -/
theorem c10_report_elements_nonempty :
    ∀ s : List Char,
      (∀ x ∈ (buildReportStructure s).findings, x ≠ []) ∧
        (∀ x ∈ (buildReportStructure s).diagnoses, x ≠ []) ∧
          (∀ x ∈ (buildReportStructure s).medications, x ≠ []) ∧
            (∀ x ∈ (buildReportStructure s).followups, x ≠ []) := by
  intro s
  by_cases h0 : s = []
  · subst h0
    refine ⟨?_, ?_, ?_, ?_⟩ <;> intro x hx <;>
      simp [buildReportStructure, emptyReport] at hx
  · unfold buildReportStructure
    rw [if_neg h0]
    have hinv := foldl_preserve reportStep
      (fun st => (∀ x ∈ st.1.findings, x ≠ []) ∧ (∀ x ∈ st.1.diagnoses, x ≠ []) ∧
        (∀ x ∈ st.1.medications, x ≠ []) ∧ (∀ x ∈ st.1.followups, x ≠ []))
      ((splitLines s).map trimChars) (emptyReport, RSection.intro)
      (fun st' l _ h => reportStep_nonempty_inv st' l h)
      (by
        refine ⟨?_, ?_, ?_, ?_⟩ <;> intro x hx <;> simp [emptyReport] at hx)
    simpa using hinv

/-- C10 witness: the theorem applied at a concrete input and the concrete
element of its findings list. -/
theorem c10_witness :
    "a".data ∈ (buildReportStructure "Key Findings:\n- a".data).findings ∧
      "a".data ≠ [] :=
  ⟨by decide,
    (c10_report_elements_nonempty "Key Findings:\n- a".data).1 "a".data
      (by decide)⟩

end Symptoms
